import Mathlib

/-
Verification development for the gigaverse-engine decision core
(combat simulator, state evaluator, expectimax search with lethal override,
loot valuator).

Modelling conventions, fixed once for the whole file:

* The TypeScript sources hold small non-negative integers in JS numbers
  (health, armor, attack, defense); these are embedded as `Nat`.
  Charges range over {-1,0,1,2,3} and are embedded as `Int`.
* JS floating-point score arithmetic is embedded as exact rational
  arithmetic.  Because kernel reduction of Lean's built-in `Rat` is not
  available for concrete evaluation, scores are carried by `Frac`, a raw
  (unnormalized) integer fraction whose operations are plain `Int`
  arithmetic, together with the interpretation `Frac.toRat` into `ℚ` used
  by the algebraic theorems.  Every fraction built by the embedded code
  has a positive denominator (`Frac.wf`), which makes the comparison
  `Frac.blt` agree with the rational order.
* JS `-Infinity` (used by the search as the initial best value and as the
  value of a combat node with no legal move) is embedded by the extended
  value type `EVal` with a bottom element `EVal.neginf`.
* The search memoization cache is elided: the cache key of the embedded
  version (depth, enemy index, and the full health/armor/charge/atk/def
  fingerprint of the player and the current enemy) determines every field
  the search reads, and the cache is cleared on each decision, so the
  memoized function computes the same result as the plain recursion
  embedded here.
* In-place mutation of cloned states (fastClone followed by field updates)
  is embedded as pure record update; cloning is the identity on values.
-/

/-- Raw integer fraction: numerator and denominator, never normalized.
All constructors used by the embedded code keep the denominator positive. -/
structure Frac where
  num : Int
  den : Int
  deriving DecidableEq, Repr

/-- Embed an integer as a fraction with denominator one. -/
def Frac.ofInt (n : Int) : Frac := ⟨n, 1⟩

/-- Embed a natural number as a fraction with denominator one. -/
def Frac.ofNat (n : Nat) : Frac := ⟨(n : Int), 1⟩

/-- Fraction addition (cross multiplication, no reduction). -/
def Frac.add (a b : Frac) : Frac := ⟨a.num * b.den + b.num * a.den, a.den * b.den⟩

/-- Fraction subtraction. -/
def Frac.sub (a b : Frac) : Frac := ⟨a.num * b.den - b.num * a.den, a.den * b.den⟩

/-- Fraction multiplication. -/
def Frac.mul (a b : Frac) : Frac := ⟨a.num * b.num, a.den * b.den⟩

/-- Fraction division.  Sound for ordering purposes whenever the divisor is
positive, which holds at every division site of the embedded code. -/
def Frac.div (a b : Frac) : Frac := ⟨a.num * b.den, a.den * b.num⟩

/-- Strict comparison by cross multiplication; agrees with the rational
order when both denominators are positive. -/
def Frac.blt (a b : Frac) : Bool := a.num * b.den < b.num * a.den

/-- Maximum of two fractions, as JS Math.max on finite doubles. -/
def Frac.fmax (a b : Frac) : Frac := if a.blt b then b else a

/-- Minimum of two fractions, as JS Math.min on finite doubles. -/
def Frac.fmin (a b : Frac) : Frac := if a.blt b then a else b

/-- Well-formedness: the denominator is positive. -/
def Frac.wf (a : Frac) : Prop := 0 < a.den

/-- Interpretation of a raw fraction as a rational number. -/
def Frac.toRat (a : Frac) : ℚ := (a.num : ℚ) / (a.den : ℚ)

/-- Extended score value: JS finite doubles plus the -Infinity sentinel the
search uses for initial best values and dead-end nodes. -/
inductive EVal where
  | neginf : EVal
  | fin : Frac → EVal
  deriving DecidableEq, Repr

/-- Addition on extended values (-Infinity absorbs; no NaN can arise in the
embedded code since +Infinity is never produced). -/
def EVal.add : EVal → EVal → EVal
  | .neginf, _ => .neginf
  | _, .neginf => .neginf
  | .fin a, .fin b => .fin (a.add b)

/-- Multiplication by a (positive) probability: -Infinity stays -Infinity. -/
def EVal.scale (p : Frac) : EVal → EVal
  | .neginf => .neginf
  | .fin a => .fin (a.mul p)

/-- Strict comparison on extended values, mirroring JS `<` with -Infinity. -/
def EVal.blt : EVal → EVal → Bool
  | .neginf, .fin _ => true
  | .neginf, .neginf => false
  | .fin _, .neginf => false
  | .fin a, .fin b => a.blt b

/-- Well-formedness of an extended value. -/
def EVal.wf : EVal → Prop
  | .neginf => True
  | .fin a => a.wf

/-- Interpretation of an extended value in `WithBot ℚ`. -/
def EVal.erat : EVal → WithBot ℚ
  | .neginf => ⊥
  | .fin a => (a.toRat : WithBot ℚ)

/-- The state of one of the three moves of a fighter
(gigaverse-engine/src/simulator/GigaverseTypes, as used by the algorithms). -/
structure GigaverseMoveState where
  currentATK : Nat
  currentDEF : Nat
  currentCharges : Int
  deriving DecidableEq, Repr

/-- A current/max pair (health or armor). -/
structure Gauge where
  current : Nat
  max : Nat
  deriving DecidableEq, Repr

/-- A fighter: health, armor and the three move stats. -/
structure GigaverseFighter where
  health : Gauge
  armor : Gauge
  rock : GigaverseMoveState
  paper : GigaverseMoveState
  scissor : GigaverseMoveState
  deriving DecidableEq, Repr

/-- A loot option as carried by the engine: a free-form type string plus two
value slots and an optional charge grant (rock, paper, scissor). -/
structure LootOption where
  boonTypeString : String
  selectedVal1 : Nat
  selectedVal2 : Nat
  grantCharges : Option (Nat × Nat × Nat)
  deriving DecidableEq, Repr

/-- The observable run state consumed by the engine. -/
structure GigaverseRunState where
  player : GigaverseFighter
  enemies : List GigaverseFighter
  currentEnemyIndex : Nat
  lootPhase : Bool
  lootOptions : List LootOption
  totalRooms : Option Nat
  currentRoomIndex : Option Nat
  deriving DecidableEq, Repr

/-- The three combat moves. -/
inductive MoveType where
  | rock : MoveType
  | paper : MoveType
  | scissor : MoveType
  deriving DecidableEq, Repr

/-- Actions the engine can return. -/
inductive GigaverseAction where
  | moveRock : GigaverseAction
  | movePaper : GigaverseAction
  | moveScissor : GigaverseAction
  | pickLootOne : GigaverseAction
  | pickLootTwo : GigaverseAction
  | pickLootThree : GigaverseAction
  | pickLootFour : GigaverseAction
  deriving DecidableEq, Repr

/-- Select the move stat block of a fighter (DPAlgorithm.getStats). -/
def getStats (f : GigaverseFighter) : MoveType → GigaverseMoveState
  | .rock => f.rock
  | .paper => f.paper
  | .scissor => f.scissor

/-- DPAlgorithm.applyDamage: armor gain first (clamped to max armor), then
absorption of min(incoming, armor) by armor, then the remainder off health,
floored at zero (Nat subtraction is the JS Math.max(0, _) here). -/
def applyDamage (fighter : GigaverseFighter) (incoming : Nat) (armorGain : Nat) :
    GigaverseFighter :=
  let armorAfterGain := min (fighter.armor.current + armorGain) fighter.armor.max
  let dmg := incoming
  if 0 < armorAfterGain ∧ 0 < dmg then
    let absorb := min armorAfterGain dmg
    let fighter2 := { fighter with armor := { fighter.armor with current := armorAfterGain - absorb } }
    let rem := dmg - absorb
    if 0 < rem then
      { fighter2 with health := { fighter2.health with current := fighter2.health.current - rem } }
    else fighter2
  else
    let fighter2 := { fighter with armor := { fighter.armor with current := armorAfterGain } }
    if 0 < dmg then
      { fighter2 with health := { fighter2.health with current := fighter2.health.current - dmg } }
    else fighter2

/-- Charge update for the move the fighter used: decrement if above one,
drop to the -1 cooldown if exactly one, otherwise unchanged. -/
def chargeStepUsed (c : Int) : Int :=
  if 1 < c then c - 1 else if c = 1 then -1 else c

/-- Charge update for a move the fighter did not use: -1 becomes 0, values
in [0,3) increment, anything else (in particular 3) is unchanged. -/
def chargeStepOther (c : Int) : Int :=
  if c = -1 then 0 else if 0 ≤ c ∧ c < 3 then c + 1 else c

/-- DPAlgorithm.updateCharges: the used move takes `chargeStepUsed`, the two
other moves take `chargeStepOther` (the source mutates the used move first
and then the others; the fields are disjoint, so one record update). -/
def updateCharges (f : GigaverseFighter) : MoveType → GigaverseFighter
  | .rock =>
      { f with rock := { f.rock with currentCharges := chargeStepUsed f.rock.currentCharges },
               paper := { f.paper with currentCharges := chargeStepOther f.paper.currentCharges },
               scissor := { f.scissor with currentCharges := chargeStepOther f.scissor.currentCharges } }
  | .paper =>
      { f with rock := { f.rock with currentCharges := chargeStepOther f.rock.currentCharges },
               paper := { f.paper with currentCharges := chargeStepUsed f.paper.currentCharges },
               scissor := { f.scissor with currentCharges := chargeStepOther f.scissor.currentCharges } }
  | .scissor =>
      { f with rock := { f.rock with currentCharges := chargeStepOther f.rock.currentCharges },
               paper := { f.paper with currentCharges := chargeStepOther f.paper.currentCharges },
               scissor := { f.scissor with currentCharges := chargeStepUsed f.scissor.currentCharges } }

/-- Win test for the player (rock beats scissor, paper beats rock, scissor
beats paper). -/
def playerWins : MoveType → MoveType → Bool
  | .rock, .scissor => true
  | .paper, .rock => true
  | .scissor, .paper => true
  | _, _ => false

/-- DPAlgorithm.applyRoundOutcome: classify the round, compute damage and
armor gains, apply them to both fighters, then update both charge sets.
The current enemy is looked up by index; the source would crash on a missing
enemy, the embedding returns the state unchanged (the call sites guarantee
presence). -/
def applyRoundOutcome (s : GigaverseRunState) (pMove eMove : MoveType) :
    GigaverseRunState :=
  match s.enemies[s.currentEnemyIndex]? with
  | none => s
  | some e =>
    let pStats := getStats s.player pMove
    let eStats := getStats e eMove
    let tie := pMove = eMove
    let pWins := playerWins pMove eMove
    let dmgToE := if tie then pStats.currentATK else if pWins then pStats.currentATK else 0
    let dmgToP := if tie then eStats.currentATK else if pWins then 0 else eStats.currentATK
    let armorGainP := if tie then pStats.currentDEF else if pWins then pStats.currentDEF else 0
    let armorGainE := if tie then eStats.currentDEF else if pWins then 0 else eStats.currentDEF
    let p2 := updateCharges (applyDamage s.player dmgToP armorGainP) pMove
    let e2 := updateCharges (applyDamage e dmgToE armorGainE) eMove
    { s with player := p2, enemies := s.enemies.set s.currentEnemyIndex e2 }

/-- The caller-side advancement after a round: if the current enemy reached
zero health, move to the next enemy (calculateExpectedValue lines 1077-1080). -/
def advanceEnemyIfDead (s : GigaverseRunState) : GigaverseRunState :=
  match s.enemies[s.currentEnemyIndex]? with
  | none => s
  | some e => if e.health.current = 0 then { s with currentEnemyIndex := s.currentEnemyIndex + 1 } else s

/-- Per-move charge bonus of combatEvaluate: empty or cooldown -120, one
charge +35, two +60, three or more +90. -/
def chargeBonus (c : Int) : Int :=
  if c ≤ 0 then -120 else if c = 1 then 35 else if c = 2 then 60 else 90

/-- combatEvaluate (gigaverse-engine/src/algorithms/combatEvaluate.ts):
the balanced combat-only state evaluator fixed by the spec.  The score is
integer-valued except for the final low-health risk-aversion correction.
The null-state guard of the source cannot fire on total structures. -/
def combatEvaluate (s : GigaverseRunState) : Frac :=
  let p := s.player
  if p.health.current = 0 then Frac.ofInt (-1000000) else
  let base : Int := (s.currentEnemyIndex : Int) * 20000
  let deadEnemyScore := Frac.ofInt (base + 35000 + (p.health.current : Int) * 250)
  match s.enemies[s.currentEnemyIndex]? with
  | none => deadEnemyScore
  | some e =>
    if e.health.current = 0 then deadEnemyScore
    else
      let s1 := base + (p.health.current : Int) * 300
      let s2 := s1 + (p.armor.current : Int) * 120
      let s3 := if p.armor.current = 0 then s2 - 800 else s2
      let damageDealt : Int := (e.health.max : Int) - (e.health.current : Int)
      let s4 := s3 + damageDealt * 80
      let myTotalStats : Int :=
        ((p.rock.currentATK + p.rock.currentDEF + p.paper.currentATK +
          p.paper.currentDEF + p.scissor.currentATK + p.scissor.currentDEF : Nat) : Int)
      let s5 := s4 + chargeBonus p.rock.currentCharges + chargeBonus p.paper.currentCharges +
        chargeBonus p.scissor.currentCharges
      let s6 := s5 + myTotalStats * 30
      let threat : Int :=
        (if 0 < e.rock.currentCharges then (e.rock.currentATK : Int) * 25 else 0) +
        (if 0 < e.paper.currentCharges then (e.paper.currentATK : Int) * 25 else 0) +
        (if 0 < e.scissor.currentCharges then (e.scissor.currentATK : Int) * 25 else 0)
      let s7 := s6 - threat
      let hpPercent := (Frac.ofNat p.health.current).div (Frac.ofNat (max 1 p.health.max))
      if hpPercent.blt ⟨7, 20⟩ then
        (Frac.ofInt s7).sub ((Frac.sub ⟨7, 20⟩ hpPercent).mul (Frac.ofInt 2000))
      else Frac.ofInt s7

/-- Charge bonus exactly as the spec table lists it: 1, 2, and at-least-3
get +35, +60, +90; everything else (0 and the -1 cooldown) gets -120. -/
def specChargeBonus (c : Int) : ℚ :=
  if c = 1 then 35 else if c = 2 then 60 else if 3 ≤ c then 90 else -120

/-- The section 4.2 evaluator, written directly from the spec table over ℚ:
dead player -1000000; +20000 per cleared enemy; dead current enemy +35000
and an immediate return of score plus 250 per remaining health point;
+300 per health point, +120 per armor point, -800 at zero armor, +80 per
damage point dealt, the per-move charge bonuses, +30 per invested stat
point, -25 per enemy attack point on charged enemy moves, and the
low-health penalty of (0.35 - ratio) * 2000 below a 0.35 health ratio. -/
def specEvaluate (s : GigaverseRunState) : ℚ :=
  if s.player.health.current = 0 then -1000000 else
  let cleared : ℚ := 20000 * (s.currentEnemyIndex : ℚ)
  let exitScore : ℚ := cleared + 35000 + 250 * (s.player.health.current : ℚ)
  match s.enemies[s.currentEnemyIndex]? with
  | none => exitScore
  | some e =>
    if e.health.current = 0 then exitScore
    else
      let p := s.player
      let ratio : ℚ := (p.health.current : ℚ) / (p.health.max : ℚ)
      cleared
      + 300 * (p.health.current : ℚ)
      + 120 * (p.armor.current : ℚ)
      + (if p.armor.current = 0 then -800 else 0)
      + 80 * ((e.health.max : ℚ) - (e.health.current : ℚ))
      + specChargeBonus p.rock.currentCharges
      + specChargeBonus p.paper.currentCharges
      + specChargeBonus p.scissor.currentCharges
      + 30 * ((p.rock.currentATK + p.rock.currentDEF + p.paper.currentATK +
          p.paper.currentDEF + p.scissor.currentATK + p.scissor.currentDEF : Nat) : ℚ)
      - 25 * ((if 0 < e.rock.currentCharges then (e.rock.currentATK : ℚ) else 0) +
              (if 0 < e.paper.currentCharges then (e.paper.currentATK : ℚ) else 0) +
              (if 0 < e.scissor.currentCharges then (e.scissor.currentATK : ℚ) else 0))
      + (if ratio < 7 / 20 then -((7 / 20 - ratio) * 2000) else 0)

/-- Section 3 invariant of one move: charges lie in {-1,0,1,2,3}. -/
def moveStateInv (m : GigaverseMoveState) : Bool :=
  decide (-1 ≤ m.currentCharges) && decide (m.currentCharges ≤ 3)

/-- Section 3 invariant of one fighter: gauges within bounds, charge range
on all three moves (lower bounds on health and armor are carried by Nat). -/
def fighterInv (f : GigaverseFighter) : Bool :=
  decide (f.health.current ≤ f.health.max) && decide (f.armor.current ≤ f.armor.max) &&
  moveStateInv f.rock && moveStateInv f.paper && moveStateInv f.scissor

/-- Section 3 invariant of a run state, for the player and every enemy. -/
def stateInv (s : GigaverseRunState) : Bool :=
  fighterInv s.player && s.enemies.all fighterInv

/-- DPAlgorithm.actionToMoveType: loot actions fall through to scissor. -/
def actionToMoveType : GigaverseAction → MoveType
  | .moveRock => .rock
  | .movePaper => .paper
  | _ => .scissor

/-- DPAlgorithm.getCombatActions: one action per player move with positive
charges, in rock, paper, scissor order. -/
def getCombatActions (s : GigaverseRunState) : List GigaverseAction :=
  (if 0 < s.player.rock.currentCharges then [GigaverseAction.moveRock] else []) ++
  (if 0 < s.player.paper.currentCharges then [GigaverseAction.movePaper] else []) ++
  (if 0 < s.player.scissor.currentCharges then [GigaverseAction.moveScissor] else [])

/-- Enemy reply set of calculateExpectedValue: moves with positive charges in
rock, paper, scissor order; rock alone when the enemy has no charged move. -/
def enemyLegalMoves (e : GigaverseFighter) : List MoveType :=
  let ms := (if 0 < e.rock.currentCharges then [MoveType.rock] else []) ++
            (if 0 < e.paper.currentCharges then [MoveType.paper] else []) ++
            (if 0 < e.scissor.currentCharges then [MoveType.scissor] else [])
  if ms.isEmpty then [MoveType.rock] else ms

/-- Result record of one search node. -/
structure DPResult where
  bestValue : EVal
  bestAction : Option GigaverseAction
  deriving DecidableEq, Repr

/-- The lethal sentinel threshold of the search (values below -900000). -/
def deathThreshold : Frac := ⟨-900000, 1⟩

/-- The deathDetected / deathScore loop state of calculateExpectedValue,
folded over the child values in enemy-move order: the scan remembers the
value of the most recent child below the death threshold, if any. -/
def lethalScan (vals : List EVal) : Option EVal :=
  vals.foldl (fun acc v => if v.blt (EVal.fin deathThreshold) then some v else acc) none

/-- The probability-weighted accumulator of calculateExpectedValue. -/
def weightedTotal (p : Frac) (vals : List EVal) : EVal :=
  vals.foldl (fun acc v => acc.add (v.scale p)) (EVal.fin (Frac.ofInt 0))

/-- One child of a search node: apply the round, then advance past a dead
enemy as the caller side of the kernel does. -/
def childState (s : GigaverseRunState) (pm em : MoveType) : GigaverseRunState :=
  advanceEnemyIfDead (applyRoundOutcome s pm em)

/-- DPAlgorithm.calculateExpectedValue (the lethal-override version of the
source): uniform distribution over the enemy replies, recursion into each
child, and the lethal override returning the remembered death score instead
of the weighted mean.  The source passes `depth` and recurses at depth - 1;
the embedding receives the child-level search as the function argument
`search`. -/
def calculateExpectedValue (evaluateFn : GigaverseRunState → Frac)
    (search : GigaverseRunState → DPResult) (s : GigaverseRunState)
    (myAct : GigaverseAction) : EVal :=
  match s.enemies[s.currentEnemyIndex]? with
  | none => EVal.fin (evaluateFn s)
  | some enemy =>
    if enemy.health.current = 0 then EVal.fin (evaluateFn s)
    else
      let enemyMoves := enemyLegalMoves enemy
      let probability : Frac := ⟨1, (enemyMoves.length : Int)⟩
      let myMove := actionToMoveType myAct
      let childValues := enemyMoves.map
        (fun em => (search (childState s myMove em)).bestValue)
      match lethalScan childValues with
      | some deathScore => deathScore
      | none => weightedTotal probability childValues

/-- The best-action loop of expectimaxSearch: strict improvement over the
running best, which starts at -Infinity with no action. -/
def bestOf (f : GigaverseAction → EVal) (acts : List GigaverseAction) : DPResult :=
  acts.foldl (fun r a => let v := f a; if r.bestValue.blt v then ⟨v, some a⟩ else r)
    ⟨EVal.neginf, none⟩

/-- DPAlgorithm.expectimaxSearch: terminal evaluation at depth zero, on a
dead player, or past the last enemy; the rock-marker dead end when no move
is charged; otherwise the best expected value over the legal actions. -/
def expectimaxSearch (evaluateFn : GigaverseRunState → Frac) :
    Nat → GigaverseRunState → DPResult
  | 0, s => ⟨EVal.fin (evaluateFn s), none⟩
  | d + 1, s =>
    if s.player.health.current = 0 ∨ s.enemies.length ≤ s.currentEnemyIndex then
      ⟨EVal.fin (evaluateFn s), none⟩
    else
      let myActions := getCombatActions s
      if myActions.isEmpty then ⟨EVal.neginf, some GigaverseAction.moveRock⟩
      else
        bestOf (fun a => calculateExpectedValue evaluateFn
          (expectimaxSearch evaluateFn d) s a) myActions

/-- The constructor of DPAlgorithm raises the configured horizon to at
least six (Math.max(config.maxHorizon, 6)). -/
def searchDepth (maxHorizon : Nat) : Nat := max maxHorizon 6

/-- Lower-case a string character by character (String.toLowerCase). -/
def strLower (s : String) : String := ⟨s.data.map Char.toLower⟩

/-- JS String.includes: some drop of the haystack starts with the needle. -/
def strContains (hay needle : String) : Bool :=
  (List.range (hay.data.length + 1)).any
    (fun i => needle.data == (hay.data.drop i).take needle.data.length)

/-- DPAlgorithm.getLootSynergyScore (the detective-mode scorer of the
fast-clone DPAlgorithm version): keyword classification of the boon string,
then tiered scoring with heal overrides, jackpots for big stat boons, and a
build-multiplier weapon formula with the +1 trash penalty. -/
def getLootSynergyScore (s : GigaverseRunState) (loot : LootOption) : Frac :=
  let p := s.player
  let rawType := loot.boonTypeString
  let t := strLower rawType
  let val1 := loot.selectedVal1
  let val2 := loot.selectedVal2
  let isMaxHP := rawType == "AddMaxHealth" || strContains t "health upgrade" ||
    strContains t "addmaxhealth" || (strContains t "health" && strContains t "max")
  let isArmor := rawType == "AddMaxArmor" || strContains t "armor upgrade" ||
    strContains t "addmaxarmor"
  let isHeal := (rawType == "Heal" || t == "heal" || strContains t "potion") && !isMaxHP
  let isRock := rawType == "UpgradeRock" || strContains t "sword" || strContains t "rock"
  let isPaper := rawType == "UpgradePaper" || strContains t "shield" || strContains t "paper"
  let isScissor := rawType == "UpgradeScissor" || strContains t "spell" ||
    strContains t "magic" || strContains t "scissor"
  if isHeal then
    let current := p.health.current
    let mx := p.health.max
    let missing : Int := (mx : Int) - (current : Int)
    if missing < 1 then Frac.ofInt (-999999)
    else if Frac.blt ⟨9, 10⟩ ((Frac.ofNat current).div (Frac.ofNat mx)) then Frac.ofInt (-5000)
    else
      let effectiveHeal : Int := min missing (val1 : Int)
      let hpPercent := (Frac.ofNat current).div (Frac.ofNat mx)
      let urgency : Int := if hpPercent.blt ⟨3, 10⟩ then 50
        else if hpPercent.blt ⟨1, 2⟩ then 10 else 1
      Frac.ofInt (effectiveHeal * urgency * 5)
  else if isMaxHP then
    let jackpot : Int := if 4 ≤ val1 then 500 else 0
    Frac.ofInt ((val1 : Int) * 150 + jackpot)
  else if isArmor then
    let jackpot : Int := if 3 ≤ val1 then 400 else 0
    Frac.ofInt ((val1 : Int) * 120 + jackpot)
  else if isRock || isPaper || isScissor then
    let isAtk := 0 < val1
    let val : Nat := if isAtk then val1 else val2
    let lowTierPenalty : Frac := if val = 1 then ⟨1, 10⟩ else Frac.ofInt 1
    let charges : Int := if isRock then p.rock.currentCharges
      else if isPaper then p.paper.currentCharges else p.scissor.currentCharges
    let currentStat : Nat :=
      if isRock then (if isAtk then p.rock.currentATK else p.rock.currentDEF)
      else if isPaper then (if isAtk then p.paper.currentATK else p.paper.currentDEF)
      else (if isAtk then p.scissor.currentATK else p.scissor.currentDEF)
    let buildMultiplier : Frac := if isRock then ⟨3, 2⟩ else if isPaper then ⟨3, 2⟩ else ⟨7, 10⟩
    let usefulness : Frac :=
      if isAtk then
        let armorPercent : Frac := if 0 < p.armor.max then
            (Frac.ofNat p.armor.current).div (Frac.ofNat p.armor.max)
          else Frac.ofInt 0
        if Frac.blt ⟨9, 10⟩ armorPercent then ⟨9, 5⟩ else ⟨6, 5⟩
      else
        if currentStat < p.armor.max then ⟨3, 2⟩ else ⟨4, 5⟩
    let powerValue : Int := (val : Int) * (val : Int)
    let baseScore : Frac :=
      if 0 < charges then
        let effectiveCharges : Int := min charges 5
        ((((Frac.ofInt (powerValue * 18)).mul (Frac.ofInt effectiveCharges)).mul
          buildMultiplier).mul usefulness).add (Frac.ofInt ((currentStat : Int) * 2))
      else (Frac.ofInt (powerValue * 18)).mul buildMultiplier
    baseScore.mul lowTierPenalty
  else Frac.ofInt 0

/-- DPAlgorithm.pickBestLoot: scan the loot options in order, keeping the
first strictly best synergy score; the winning index starts at zero, so an
empty option list yields the first pick action. -/
def pickBestLoot (s : GigaverseRunState) : GigaverseAction :=
  let r := s.lootOptions.foldl
    (fun (acc : EVal × Nat × Nat) loot =>
      let score := EVal.fin (getLootSynergyScore s loot)
      if acc.1.blt score then (score, acc.2.2, acc.2.2 + 1)
      else (acc.1, acc.2.1, acc.2.2 + 1))
    (EVal.neginf, 0, 0)
  match r.2.1 with
  | 0 => GigaverseAction.pickLootOne
  | 1 => GigaverseAction.pickLootTwo
  | 2 => GigaverseAction.pickLootThree
  | 3 => GigaverseAction.pickLootFour
  | _ => GigaverseAction.pickLootOne

/-- DPAlgorithm.pickAction: loot phase goes to the rule-based loot pick;
combat runs the expectimax search at the configured horizon (raised to at
least 6 by the constructor) with the rock fallback when no action came back. -/
def pickAction (evaluateFn : GigaverseRunState → Frac) (maxHorizon : Nat)
    (s : GigaverseRunState) : GigaverseAction :=
  if s.lootPhase then pickBestLoot s
  else
    match (expectimaxSearch evaluateFn (searchDepth maxHorizon) s).bestAction with
    | none => GigaverseAction.moveRock
    | some a => a

/-- lootEvaluate.applyLootToClone: apply a boon to the player, with the caps
of the source (health capped at the raised max, armor capped at max, heal
capped at max, charge grants capped at three). -/
def applyLootToClone (s : GigaverseRunState) (loot : LootOption) : GigaverseRunState :=
  let rawType := loot.boonTypeString
  let t := strLower rawType
  let v1 := loot.selectedVal1
  let v2 := loot.selectedVal2
  let p := s.player
  if rawType == "AddMaxHealth" || strContains t "maxhealth" || strContains t "vitality" ||
      strContains t "hp" then
    let newMax := p.health.max + v1
    { s with player := { p with health := ⟨min newMax (p.health.current + v1), newMax⟩ } }
  else if rawType == "AddMaxArmor" || strContains t "maxarmor" || strContains t "armor" then
    let newMax := p.armor.max + v1
    { s with player := { p with armor := ⟨min (p.armor.current + v1) newMax, newMax⟩ } }
  else if rawType == "Heal" || t == "heal" || strContains t "potion" then
    { s with player := { p with health :=
        { p.health with current := min p.health.max (p.health.current + v1) } } }
  else if rawType == "UpgradeRock" || strContains t "upgraderock" || strContains t "rock" then
    { s with player := { p with rock :=
        { p.rock with currentATK := if 0 < v1 then p.rock.currentATK + v1 else p.rock.currentATK,
                      currentDEF := if 0 < v2 then p.rock.currentDEF + v2 else p.rock.currentDEF } } }
  else if rawType == "UpgradePaper" || strContains t "upgradepaper" || strContains t "paper" then
    { s with player := { p with paper :=
        { p.paper with currentATK := if 0 < v1 then p.paper.currentATK + v1 else p.paper.currentATK,
                       currentDEF := if 0 < v2 then p.paper.currentDEF + v2 else p.paper.currentDEF } } }
  else if rawType == "UpgradeScissor" || strContains t "upgradescissor" ||
      strContains t "scissor" || strContains t "spell" || strContains t "magic" then
    { s with player := { p with scissor :=
        { p.scissor with currentATK := if 0 < v1 then p.scissor.currentATK + v1 else p.scissor.currentATK,
                         currentDEF := if 0 < v2 then p.scissor.currentDEF + v2 else p.scissor.currentDEF } } }
  else
    match loot.grantCharges with
    | some g =>
      { s with player := { p with
          rock := { p.rock with currentCharges := min 3 (p.rock.currentCharges + (g.1 : Int)) },
          paper := { p.paper with currentCharges := min 3 (p.paper.currentCharges + (g.2.1 : Int)) },
          scissor := { p.scissor with currentCharges := min 3 (p.scissor.currentCharges + (g.2.2 : Int)) } } }
    | none => s

/-- lootEvaluate.computeStateDeltaValue: evaluator delta of applying the
loot to a clone (State Delta Value). -/
def computeStateDeltaValue (s : GigaverseRunState) (loot : LootOption) : Frac :=
  (combatEvaluate (applyLootToClone s loot)).sub (combatEvaluate s)

/-- Build preferences returned by lootEvaluate.analyzeBuildPreference. -/
structure BuildPref where
  rock : Frac
  paper : Frac
  scissor : Frac
  hp : Frac
  armor : Frac
  charges : Frac
  deriving DecidableEq, Repr

/-- lootEvaluate.analyzeBuildPreference: weapon scores atk * clamp(charges,
1, 3) + def * 0.5 normalized by the max weapon, plus health, armor and
charge preferences. -/
def analyzeBuildPreference (s : GigaverseRunState) : BuildPref :=
  let p := s.player
  let clampCharges : Int → Int := fun c => max 1 (min 3 c)
  let rockScore := (Frac.ofInt ((p.rock.currentATK : Int) * clampCharges p.rock.currentCharges)).add
    ⟨(p.rock.currentDEF : Int), 2⟩
  let paperScore := (Frac.ofInt ((p.paper.currentATK : Int) * clampCharges p.paper.currentCharges)).add
    ⟨(p.paper.currentDEF : Int), 2⟩
  let scissorScore := (Frac.ofInt ((p.scissor.currentATK : Int) * clampCharges p.scissor.currentCharges)).add
    ⟨(p.scissor.currentDEF : Int), 2⟩
  let maxWeapon := ((rockScore.fmax paperScore).fmax scissorScore).fmax (Frac.ofInt 1)
  let totalCharges : Int :=
    (if 0 < p.rock.currentCharges then p.rock.currentCharges else 0) +
    (if 0 < p.paper.currentCharges then p.paper.currentCharges else 0) +
    (if 0 < p.scissor.currentCharges then p.scissor.currentCharges else 0)
  { rock := rockScore.div maxWeapon
    paper := paperScore.div maxWeapon
    scissor := scissorScore.div maxWeapon
    hp := (Frac.ofInt 1).sub ((Frac.ofNat p.health.current).div (Frac.ofNat (max 1 p.health.max)))
    armor := (Frac.ofNat p.armor.current).div (Frac.ofNat (max 1 p.armor.max))
    charges := (Frac.ofInt 1).sub (Frac.fmin (Frac.ofInt 1) ⟨totalCharges, 9⟩) }

/-- The greedy move of the micro-simulation: the charged move with the
highest attack, earliest of rock, paper, scissor on ties. -/
def pickGreedyMove (f : GigaverseFighter) : Option MoveType :=
  let best0 : Option (MoveType × Nat) :=
    if 0 < f.rock.currentCharges then some (MoveType.rock, f.rock.currentATK) else none
  let best1 : Option (MoveType × Nat) :=
    match best0 with
    | none => if 0 < f.paper.currentCharges then some (MoveType.paper, f.paper.currentATK) else none
    | some b => if 0 < f.paper.currentCharges ∧ b.2 < f.paper.currentATK then
        some (MoveType.paper, f.paper.currentATK) else best0
  let best2 : Option (MoveType × Nat) :=
    match best1 with
    | none => if 0 < f.scissor.currentCharges then some (MoveType.scissor, f.scissor.currentATK) else none
    | some b => if 0 < f.scissor.currentCharges ∧ b.2 < f.scissor.currentATK then
        some (MoveType.scissor, f.scissor.currentATK) else best1
  best2.map Prod.fst

/-- The local applyRound of lootEvaluate.microSimulateLootEffect: the same
round physics as the engine kernel (the source copies the damage and charge
logic; it updates the enemy before the player, the two updates touch
disjoint fields, and the fused charge loop equals per-fighter updateCharges). -/
def applyRoundLoot (s : GigaverseRunState) (pMove eMove : MoveType) : GigaverseRunState :=
  match s.enemies[s.currentEnemyIndex]? with
  | none => s
  | some e =>
    let pStats := getStats s.player pMove
    let eStats := getStats e eMove
    let tie := pMove = eMove
    let pWins := playerWins pMove eMove
    let dmgToE := if tie then pStats.currentATK else if pWins then pStats.currentATK else 0
    let dmgToP := if tie then eStats.currentATK else if pWins then 0 else eStats.currentATK
    let armorGainP := if tie then pStats.currentDEF else if pWins then pStats.currentDEF else 0
    let armorGainE := if tie then eStats.currentDEF else if pWins then 0 else eStats.currentDEF
    let e2 := updateCharges (applyDamage e dmgToE armorGainE) eMove
    let p2 := updateCharges (applyDamage s.player dmgToP armorGainP) pMove
    { s with player := p2, enemies := s.enemies.set s.currentEnemyIndex e2 }

/-- The runSim loop of the micro-simulation: up to the given number of
rounds of greedy play, stopping on player death, on running out of enemies,
and advancing the enemy index on kills; returns the final state and the
number of rounds played. -/
def runSimAux : Nat → GigaverseRunState → Nat → GigaverseRunState × Nat
  | 0, s, k => (s, k)
  | r + 1, s, k =>
    if s.player.health.current = 0 then (s, k)
    else if s.enemies.length ≤ s.currentEnemyIndex then (s, k)
    else
      match s.enemies[s.currentEnemyIndex]? with
      | none => (s, k)
      | some enemy =>
        let pm := (pickGreedyMove s.player).getD MoveType.rock
        let em := (pickGreedyMove enemy).getD MoveType.rock
        runSimAux r (advanceEnemyIfDead (applyRoundLoot s pm em)) (k + 1)

/-- lootEvaluate.microSimulateLootEffect: greedy forward simulation with and
without the loot; returns (deltaTTK, deltaSurvival) with the rounds+1
substitute when no round was played against a live enemy. -/
def microSimulateLootEffect (s : GigaverseRunState) (loot : LootOption)
    (rounds : Nat) : Int × Int :=
  let baseRes := runSimAux rounds s 0
  let modRes := runSimAux rounds (applyLootToClone s loot) 0
  let enemyAliveAtStart : Bool :=
    match s.enemies[s.currentEnemyIndex]? with
    | some e => decide (0 < e.health.current)
    | none => false
  let baseTTK : Nat := if baseRes.2 = 0 && enemyAliveAtStart then rounds + 1 else baseRes.2
  let modTTK : Nat := if modRes.2 = 0 && enemyAliveAtStart then rounds + 1 else modRes.2
  let baseSurvived : Int := if 0 < baseRes.1.player.health.current then 1 else 0
  let modSurvived : Int := if 0 < modRes.1.player.health.current then 1 else 0
  ((modTTK : Int) - (baseTTK : Int), modSurvived - baseSurvived)

/-- lootEvaluate.evaluateLoot: SDV plus type-specific signals plus the
micro-simulation, with the full-health heal override returning -1e9, the
half-weighted SDV echo, and the future-floor multiplier.  The final
Number.isFinite guard of the source cannot fire in the exact model. -/
def evaluateLoot (s : GigaverseRunState) (loot : LootOption) : Frac :=
  let sdv := computeStateDeltaValue s loot
  let buildPref := analyzeBuildPreference s
  let micro := microSimulateLootEffect s loot 3
  let deltaTTK := micro.1
  let deltaSurvival := micro.2
  let rawType := loot.boonTypeString
  let t := strLower rawType
  let isHeal := (rawType == "Heal" || t == "heal" || strContains t "potion") &&
    !(strContains t "maxhealth")
  let isMaxHP := rawType == "AddMaxHealth" || strContains t "maxhealth" ||
    strContains t "vitality" || strContains t "hp"
  let isArmor := rawType == "AddMaxArmor" || strContains t "armor"
  let isRock := rawType == "UpgradeRock" || strContains t "rock" || strContains t "sword"
  let isPaper := rawType == "UpgradePaper" || strContains t "paper" || strContains t "shield"
  let isScissor := rawType == "UpgradeScissor" || strContains t "scissor" ||
    strContains t "spell" || strContains t "magic"
  let v1 := loot.selectedVal1
  let v2 := loot.selectedVal2
  let currentHP := s.player.health.current
  let maxHP := s.player.health.max
  let missingHP : Nat := maxHP - currentHP
  if isHeal && decide (maxHP ≤ currentHP) then Frac.ofInt (-1000000000)
  else
    let score1 :=
      if isHeal then
        let hpPercent := (Frac.ofNat currentHP).div (Frac.ofNat (max 1 maxHP))
        let healWeight : Int := if hpPercent.blt ⟨3, 10⟩ then 10
          else if hpPercent.blt ⟨1, 2⟩ then 8 else 6
        (sdv.add (Frac.ofInt ((missingHP : Int) * healWeight))).add
          (Frac.ofInt (deltaSurvival * 2500))
      else sdv
    let score2 := if isMaxHP then
        (score1.add (Frac.ofInt ((v1 : Int) * 180))).add (Frac.ofInt (deltaSurvival * 2000))
      else score1
    let score3 := if isArmor then
        (score2.add (Frac.ofInt ((v1 : Int) * 150))).add (Frac.ofInt (deltaSurvival * 1500))
      else score2
    let score4 :=
      if isRock || isPaper || isScissor then
        let isAtk := 0 < v1
        let val : Nat := if isAtk then v1 else v2
        let base0 : Frac := Frac.ofInt ((val : Int) * (val : Int) * 40)
        let base1 := if isAtk then base0.mul ⟨11, 10⟩ else base0
        let prefMult : Frac := (Frac.ofInt 1).add
          ((if isRock then buildPref.rock else if isPaper then buildPref.paper
            else buildPref.scissor).mul ⟨1, 2⟩)
        let base2 := base1.mul prefMult
        let base3 := base2.add (Frac.ofInt ((-deltaTTK) * 1000))
        let base4 := base3.add (Frac.ofInt (deltaSurvival * 1500))
        let base5 := if val = 1 then base4.mul ⟨3, 5⟩ else base4
        score3.add base5
      else score3
    let score5 :=
      match loot.grantCharges with
      | some g =>
        (score4.add (Frac.ofInt (((g.1 : Int) + (g.2.1 : Int) + (g.2.2 : Int)) * 250))).add
          (Frac.ofInt (deltaSurvival * 2000))
      | none => score4
    let score6 := score5.add (sdv.mul ⟨1, 2⟩)
    let totalRooms : Nat := s.totalRooms.getD s.enemies.length
    let currentRoomIdx : Nat := s.currentRoomIndex.getD s.currentEnemyIndex
    let remaining : Int := max 0 ((totalRooms : Int) - (currentRoomIdx : Int))
    let futureMult := (Frac.ofInt 1).add (Frac.fmin ⟨2, 5⟩ ⟨remaining, 20⟩)
    score6.mul futureMult

/-- A move stat block, in source field order atk, def, charges. -/
def mkMove (atk dfn : Nat) (charges : Int) : GigaverseMoveState :=
  { currentATK := atk, currentDEF := dfn, currentCharges := charges }

/-- The tie-round scenario state: both sides will play rock; player rock is
atk 5 / def 2, enemy rock is atk 3 / def 1, both armors start at zero. -/
def tieRoundState : GigaverseRunState :=
  { player := { health := ⟨10, 10⟩, armor := ⟨0, 5⟩,
                rock := mkMove 5 2 2, paper := mkMove 0 0 0, scissor := mkMove 0 0 0 }
    enemies := [{ health := ⟨20, 20⟩, armor := ⟨0, 5⟩,
                  rock := mkMove 3 1 2, paper := mkMove 0 0 0, scissor := mkMove 0 0 0 }]
    currentEnemyIndex := 0, lootPhase := false, lootOptions := []
    totalRooms := none, currentRoomIndex := none }

/-- Fighter for the charge-regeneration scenario: rock has exactly one
charge, paper is empty, scissor is on the -1 cooldown. -/
def chargeRegenFighter : GigaverseFighter :=
  { health := ⟨10, 10⟩, armor := ⟨0, 0⟩,
    rock := mkMove 2 1 1, paper := mkMove 1 1 0, scissor := mkMove 1 0 (-1) }

/-- Lethal-override counterexample state: the player can only play rock
(one charge, zero attack); the enemy replies rock (harmless) or paper
(attack 100, lethal).  After the round the player has no charged move, so
the rock-reply child is the -Infinity dead end while the paper-reply child
is the -1000000 death leaf. -/
def lethalScanState : GigaverseRunState :=
  { player := { health := ⟨10, 10⟩, armor := ⟨0, 0⟩,
                rock := mkMove 0 0 1, paper := mkMove 0 0 (-1), scissor := mkMove 0 0 (-1) }
    enemies := [{ health := ⟨30, 30⟩, armor := ⟨0, 0⟩,
                  rock := mkMove 0 0 1, paper := mkMove 100 0 1, scissor := mkMove 0 0 0 }]
    currentEnemyIndex := 0, lootPhase := false, lootOptions := []
    totalRooms := none, currentRoomIndex := none }

/-- Lethal-override witness state: playing rock (zero attack) into the
enemy rock (attack 100) is certain death; playing paper (attack 50) kills
the enemy at once and survives. -/
def lethalChoiceState : GigaverseRunState :=
  { player := { health := ⟨10, 10⟩, armor := ⟨0, 0⟩,
                rock := mkMove 0 0 1, paper := mkMove 50 0 1, scissor := mkMove 0 0 0 }
    enemies := [{ health := ⟨5, 5⟩, armor := ⟨0, 0⟩,
                  rock := mkMove 100 0 1, paper := mkMove 0 0 0, scissor := mkMove 0 0 0 }]
    currentEnemyIndex := 0, lootPhase := false, lootOptions := []
    totalRooms := none, currentRoomIndex := none }

/-- Combat state with no charged player move: the search returns the rock
marker with the -Infinity sentinel value. -/
def noChargeState : GigaverseRunState :=
  { player := { health := ⟨5, 5⟩, armor := ⟨0, 0⟩,
                rock := mkMove 2 0 0, paper := mkMove 1 0 (-1), scissor := mkMove 1 0 0 }
    enemies := [{ health := ⟨20, 20⟩, armor := ⟨0, 0⟩,
                  rock := mkMove 3 0 2, paper := mkMove 0 0 0, scissor := mkMove 0 0 0 }]
    currentEnemyIndex := 0, lootPhase := false, lootOptions := []
    totalRooms := none, currentRoomIndex := none }

/-- Horizon counterexample state: at depth one the defensive paper move
evaluates best, but the clamped depth-six search sees that every line after
paper is eventually lethal while rock is explored first, so the configured
horizon of one is not honored and the decision differs from the one-ply
expectimax. -/
def horizonState : GigaverseRunState :=
  { player := { health := ⟨10, 10⟩, armor := ⟨0, 10⟩,
                rock := mkMove 2 0 2, paper := mkMove 0 6 1, scissor := mkMove 0 0 0 }
    enemies := [{ health := ⟨4, 4⟩, armor := ⟨0, 0⟩,
                  rock := mkMove 3 0 3, paper := mkMove 30 0 0, scissor := mkMove 30 0 0 }]
    currentEnemyIndex := 0, lootPhase := false, lootOptions := []
    totalRooms := none, currentRoomIndex := none }

/-- The Heal(10) loot offer. -/
def healLoot : LootOption :=
  { boonTypeString := "Heal", selectedVal1 := 10, selectedVal2 := 0, grantCharges := none }

/-- Loot-phase state with full health 30/30. -/
def fullHealthState : GigaverseRunState :=
  { player := { health := ⟨30, 30⟩, armor := ⟨0, 5⟩,
                rock := mkMove 4 1 2, paper := mkMove 2 2 1, scissor := mkMove 1 0 0 }
    enemies := [{ health := ⟨20, 20⟩, armor := ⟨0, 5⟩,
                  rock := mkMove 3 1 2, paper := mkMove 0 0 0, scissor := mkMove 0 0 0 }]
    currentEnemyIndex := 0, lootPhase := true, lootOptions := [healLoot]
    totalRooms := none, currentRoomIndex := none }

/-- The same situation at 29/30 health: the ratio is above 0.9 but not full. -/
def nearFullHealthState : GigaverseRunState :=
  { player := { health := ⟨29, 30⟩, armor := ⟨0, 5⟩,
                rock := mkMove 4 1 2, paper := mkMove 2 2 1, scissor := mkMove 1 0 0 }
    enemies := [{ health := ⟨20, 20⟩, armor := ⟨0, 5⟩,
                  rock := mkMove 3 1 2, paper := mkMove 0 0 0, scissor := mkMove 0 0 0 }]
    currentEnemyIndex := 0, lootPhase := true, lootOptions := [healLoot]
    totalRooms := none, currentRoomIndex := none }

/-- Loot phase with an empty option list. -/
def emptyLootState : GigaverseRunState :=
  { player := { health := ⟨10, 10⟩, armor := ⟨0, 5⟩,
                rock := mkMove 2 1 2, paper := mkMove 1 1 1, scissor := mkMove 0 0 0 }
    enemies := [{ health := ⟨20, 20⟩, armor := ⟨0, 5⟩,
                  rock := mkMove 3 1 2, paper := mkMove 0 0 0, scissor := mkMove 0 0 0 }]
    currentEnemyIndex := 0, lootPhase := true, lootOptions := []
    totalRooms := none, currentRoomIndex := none }

/-- Test used by the lethal override: a child value strictly below the
-900000 death threshold. -/
def isLethalValue (v : EVal) : Bool := v.blt (EVal.fin deathThreshold)

/-- The search value of one enemy reply under a given player action, at the
given child depth: the bestValue of the recursive search on the advanced
round outcome. -/
def childValue (evaluateFn : GigaverseRunState → Frac) (d : Nat)
    (s : GigaverseRunState) (a : GigaverseAction) (em : MoveType) : EVal :=
  (expectimaxSearch evaluateFn d (childState s (actionToMoveType a) em)).bestValue

theorem Frac.wf_ofInt (n : Int) : (Frac.ofInt n).wf := Int.zero_lt_one

theorem Frac.wf_ofNat (n : Nat) : (Frac.ofNat n).wf := Int.zero_lt_one

theorem Frac.wf_add {a b : Frac} (ha : a.wf) (hb : b.wf) : (a.add b).wf :=
  mul_pos ha hb

theorem Frac.wf_sub {a b : Frac} (ha : a.wf) (hb : b.wf) : (a.sub b).wf :=
  mul_pos ha hb

theorem Frac.wf_mul {a b : Frac} (ha : a.wf) (hb : b.wf) : (a.mul b).wf :=
  mul_pos ha hb

theorem Frac.wf_fmax {a b : Frac} (ha : a.wf) (hb : b.wf) : (a.fmax b).wf := by
  unfold Frac.fmax; split <;> assumption

theorem Frac.wf_fmin {a b : Frac} (ha : a.wf) (hb : b.wf) : (a.fmin b).wf := by
  unfold Frac.fmin; split <;> assumption

theorem Frac.toRat_ofInt (n : Int) : (Frac.ofInt n).toRat = (n : ℚ) := by
  simp [Frac.ofInt, Frac.toRat]

theorem Frac.toRat_ofNat (n : Nat) : (Frac.ofNat n).toRat = (n : ℚ) := by
  simp [Frac.ofNat, Frac.toRat]

theorem Frac.toRat_add {a b : Frac} (ha : a.wf) (hb : b.wf) :
    (a.add b).toRat = a.toRat + b.toRat := by
  have ha0 : (a.den : ℚ) ≠ 0 := by exact_mod_cast ha.ne.symm
  have hb0 : (b.den : ℚ) ≠ 0 := by exact_mod_cast hb.ne.symm
  unfold Frac.add Frac.toRat
  push_cast
  field_simp
  try ring

theorem Frac.toRat_sub {a b : Frac} (ha : a.wf) (hb : b.wf) :
    (a.sub b).toRat = a.toRat - b.toRat := by
  have ha0 : (a.den : ℚ) ≠ 0 := by exact_mod_cast ha.ne.symm
  have hb0 : (b.den : ℚ) ≠ 0 := by exact_mod_cast hb.ne.symm
  unfold Frac.sub Frac.toRat
  push_cast
  field_simp
  try ring

theorem Frac.toRat_mul (a b : Frac) : (a.mul b).toRat = a.toRat * b.toRat := by
  unfold Frac.mul Frac.toRat
  push_cast
  rw [div_mul_div_comm]

theorem Frac.toRat_div {a b : Frac} : (a.div b).toRat = a.toRat / b.toRat := by
  unfold Frac.div Frac.toRat
  push_cast
  rw [div_eq_mul_inv (_ / _ : ℚ), inv_div, div_mul_div_comm]

theorem Frac.blt_iff {a b : Frac} (ha : a.wf) (hb : b.wf) :
    a.blt b = true ↔ a.toRat < b.toRat := by
  have ha0 : (0 : ℚ) < (a.den : ℚ) := by exact_mod_cast ha
  have hb0 : (0 : ℚ) < (b.den : ℚ) := by exact_mod_cast hb
  unfold Frac.blt Frac.toRat
  rw [div_lt_div_iff₀ ha0 hb0, decide_eq_true_eq]
  constructor
  · intro h; exact_mod_cast h
  · intro h; exact_mod_cast h

theorem EVal.blt_iff_lt {a b : EVal} (ha : a.wf) (hb : b.wf) :
    a.blt b = true ↔ a.erat < b.erat := by
  cases a with
  | neginf =>
    cases b <;> simp [EVal.blt, EVal.erat, WithBot.bot_lt_coe]
  | fin qa =>
    cases b with
    | neginf => simp [EVal.blt, EVal.erat, not_lt_bot]
    | fin qb =>
      simpa [EVal.blt, EVal.erat, WithBot.coe_lt_coe] using Frac.blt_iff ha hb

theorem EVal.add_wf {a b : EVal} (ha : a.wf) (hb : b.wf) : (a.add b).wf := by
  cases a <;> cases b <;> simp_all [EVal.add, EVal.wf] <;> exact Frac.wf_add ha hb

theorem EVal.scale_wf {p : Frac} (hp : p.wf) {a : EVal} (ha : a.wf) : (a.scale p).wf := by
  cases a <;> simp_all [EVal.scale, EVal.wf] <;> exact Frac.wf_mul ha hp

theorem List.all_of_set {α : Type} {P : α → Bool} :
    ∀ {l : List α} {n : Nat} {b : α}, l.all P = true → P b = true → (l.set n b).all P = true := by
  intro l n b hl hb
  rw [List.all_eq_true] at hl ⊢
  intro x hx
  rcases List.mem_or_eq_of_mem_set hx with h | rfl
  · exact hl x h
  · exact hb

theorem mem_of_index {α : Type} {l : List α} {n : Nat} {a : α} (h : l[n]? = some a) :
    a ∈ l := by
  obtain ⟨hn, rfl⟩ := List.getElem?_eq_some_iff.mp h
  exact List.getElem_mem hn

theorem fighterInv_applyDamage {f : GigaverseFighter} (i g : Nat)
    (h : fighterInv f = true) : fighterInv (applyDamage f i g) = true := by
  obtain ⟨⟨hc, hm⟩, ⟨ac, am⟩, mr, mp, ms⟩ := f
  simp only [fighterInv, moveStateInv, Bool.and_eq_true, decide_eq_true_eq] at h ⊢
  simp only [applyDamage] at *
  split_ifs <;> simp_all <;> omega

theorem moveStateInv_stepUsed {m : GigaverseMoveState} (h : moveStateInv m = true) :
    moveStateInv { m with currentCharges := chargeStepUsed m.currentCharges } = true := by
  simp only [moveStateInv, Bool.and_eq_true, decide_eq_true_eq, chargeStepUsed] at h ⊢
  split_ifs <;> omega

theorem moveStateInv_stepOther {m : GigaverseMoveState} (h : moveStateInv m = true) :
    moveStateInv { m with currentCharges := chargeStepOther m.currentCharges } = true := by
  simp only [moveStateInv, Bool.and_eq_true, decide_eq_true_eq, chargeStepOther] at h ⊢
  split_ifs <;> omega

theorem fighterInv_updateCharges {f : GigaverseFighter} (u : MoveType)
    (h : fighterInv f = true) : fighterInv (updateCharges f u) = true := by
  have hr := h; have hp := h; have hs := h
  simp only [fighterInv, Bool.and_eq_true] at h
  obtain ⟨⟨⟨⟨h1, h2⟩, h3⟩, h4⟩, h5⟩ := h
  cases u <;>
    simp only [updateCharges, fighterInv, Bool.and_eq_true] <;>
    exact ⟨⟨⟨⟨h1, h2⟩, by first
        | exact moveStateInv_stepUsed h3 | exact moveStateInv_stepOther h3⟩, by first
        | exact moveStateInv_stepUsed h4 | exact moveStateInv_stepOther h4⟩, by first
        | exact moveStateInv_stepUsed h5 | exact moveStateInv_stepOther h5⟩

/-- Claim C3: in a round, each fighter's update is ordered: armor gain is
applied first and clamped to max armor, then absorption removes
min(incoming, armor.current) from armor, and the remaining damage reduces
health, floored at zero; the maxima are untouched. -/
theorem applyDamage_gain_then_absorb_then_health (f : GigaverseFighter)
    (incoming armorGain : Nat) :
    (applyDamage f incoming armorGain).armor.current =
        min (f.armor.current + armorGain) f.armor.max -
          min incoming (min (f.armor.current + armorGain) f.armor.max) ∧
    (applyDamage f incoming armorGain).health.current =
        f.health.current -
          (incoming - min incoming (min (f.armor.current + armorGain) f.armor.max)) ∧
    (applyDamage f incoming armorGain).armor.max = f.armor.max ∧
    (applyDamage f incoming armorGain).health.max = f.health.max := by
  obtain ⟨⟨hc, hm⟩, ⟨ac, am⟩, mr, mp, ms⟩ := f
  simp only [applyDamage]
  split_ifs <;> simp_all <;> omega

/-- Claim C4, counterexample: in the tie rock round with player atk 5 /
def 2, enemy atk 3 / def 1 and both armors at zero, the claimed outcome
(player health drop of 3 and player armor 2, enemy health drop of 5 and
enemy armor 1) is false on the code: the armor gained in step one absorbs
the incoming damage of the same round, so the player ends at health 9
(a drop of 1) and armor 0, the enemy at health 16 (a drop of 4) and armor 0. -/
theorem tieRound_claimed_values_false :
    (applyRoundOutcome tieRoundState .rock .rock).player.health.current = 9 ∧
    ¬ ((applyRoundOutcome tieRoundState .rock .rock).player.health.current = 7) ∧
    ¬ ((applyRoundOutcome tieRoundState .rock .rock).player.armor.current = 2) ∧
    ¬ ((applyRoundOutcome tieRoundState .rock .rock).enemies.map
        (fun e => e.health.current) = [15]) ∧
    ¬ ((applyRoundOutcome tieRoundState .rock .rock).enemies.map
        (fun e => e.armor.current) = [1]) := by decide

/-- Claim C4, amended: in the tie rock round the armor gain lands before
absorption, so the player takes 3 into 2 fresh armor: health drops by 1 to
9 and armor ends at 0; the enemy takes 5 into 1 fresh armor: health drops
by 4 to 16 and armor ends at 0; both rock charges are decremented (2 to 1). -/
theorem tieRound_actual_outcome :
    (applyRoundOutcome tieRoundState .rock .rock).player.health.current = 9 ∧
    (applyRoundOutcome tieRoundState .rock .rock).player.armor.current = 0 ∧
    (applyRoundOutcome tieRoundState .rock .rock).enemies.map
      (fun e => e.health.current) = [16] ∧
    (applyRoundOutcome tieRoundState .rock .rock).enemies.map
      (fun e => e.armor.current) = [0] ∧
    (applyRoundOutcome tieRoundState .rock .rock).player.rock.currentCharges = 1 ∧
    (applyRoundOutcome tieRoundState .rock .rock).enemies.map
      (fun e => e.rock.currentCharges) = [1] := by decide

/-- Claim C5: the used move's charges decrement when above one and drop to
the -1 cooldown from exactly one; each unused move goes -1 to 0, increments
inside [0,3), and stays at 3; concretely, from rock 1 / paper 0 /
scissor -1, using rock yields rock -1, paper 1, scissor 0. -/
theorem updateCharges_regeneration_rule :
    (∀ (f : GigaverseFighter) (u : MoveType),
      (1 < (getStats f u).currentCharges →
        (getStats (updateCharges f u) u).currentCharges = (getStats f u).currentCharges - 1) ∧
      ((getStats f u).currentCharges = 1 →
        (getStats (updateCharges f u) u).currentCharges = -1) ∧
      (∀ m : MoveType, m ≠ u →
        ((getStats f m).currentCharges = -1 →
          (getStats (updateCharges f u) m).currentCharges = 0) ∧
        (0 ≤ (getStats f m).currentCharges → (getStats f m).currentCharges < 3 →
          (getStats (updateCharges f u) m).currentCharges = (getStats f m).currentCharges + 1) ∧
        ((getStats f m).currentCharges = 3 →
          (getStats (updateCharges f u) m).currentCharges = 3))) ∧
    ((getStats (updateCharges chargeRegenFighter .rock) .rock).currentCharges = -1 ∧
     (getStats (updateCharges chargeRegenFighter .rock) .paper).currentCharges = 1 ∧
     (getStats (updateCharges chargeRegenFighter .rock) .scissor).currentCharges = 0) := by
  constructor
  · intro f u
    refine ⟨?_, ?_, ?_⟩
    · intro h
      cases u <;>
        simp_all [getStats, updateCharges, chargeStepUsed, chargeStepOther] <;> omega
    · intro h
      cases u <;>
        simp_all [getStats, updateCharges, chargeStepUsed, chargeStepOther] <;> omega
    · intro m hm
      refine ⟨?_, ?_, ?_⟩ <;> intro h <;> try intro h2
      all_goals cases u <;> cases m <;>
        simp_all [getStats, updateCharges, chargeStepUsed, chargeStepOther] <;> omega
  · decide

/-- Claim C5, witness: the regeneration rule applied to the concrete
rock 1 / paper 0 / scissor -1 fighter. -/
theorem updateCharges_regeneration_rule_witness :
    (getStats (updateCharges chargeRegenFighter .rock) .rock).currentCharges = -1 ∧
    (getStats (updateCharges chargeRegenFighter .rock) .paper).currentCharges = 1 := by
  have h := updateCharges_regeneration_rule
  refine ⟨(h.1 chargeRegenFighter .rock).2.1 (by decide), ?_⟩
  exact (((h.1 chargeRegenFighter .rock).2.2 .paper (by decide)).2.1 (by decide) (by decide))

/-- Claim C6: a round preserves the section 3 invariants: for every fighter
0 ≤ health.current ≤ health.max and 0 ≤ armor.current ≤ armor.max (the
lower bounds are carried by Nat), and every charge stays in {-1,0,1,2,3}. -/
theorem applyRound_preserves_invariants (s : GigaverseRunState) (pm em : MoveType)
    (h : stateInv s = true) : stateInv (applyRoundOutcome s pm em) = true := by
  unfold applyRoundOutcome
  split
  · exact h
  next e hE =>
    simp only [stateInv, Bool.and_eq_true] at h
    obtain ⟨hp, hall⟩ := h
    have he : fighterInv e = true := List.all_eq_true.mp hall e (mem_of_index hE)
    simp only [stateInv, Bool.and_eq_true]
    exact ⟨fighterInv_updateCharges _ (fighterInv_applyDamage _ _ hp),
      List.all_of_set hall (fighterInv_updateCharges _ (fighterInv_applyDamage _ _ he))⟩

/-- Claim C6, witness: the invariant preservation applied to the concrete
tie-round state. -/
theorem applyRound_preserves_invariants_witness :
    stateInv (applyRoundOutcome tieRoundState .rock .rock) = true :=
  applyRound_preserves_invariants tieRoundState .rock .rock (by decide)

theorem chargeBonus_cast (c : Int) : ((chargeBonus c : Int) : ℚ) = specChargeBonus c := by
  unfold chargeBonus specChargeBonus
  split_ifs <;> (try norm_num) <;> omega


set_option maxHeartbeats 1600000 in
/-- Claim C2: combatEvaluate agrees everywhere (under the health invariant)
with the section 4.2 table written directly over ℚ: the -1000000 death
sentinel at zero health and otherwise exactly the listed coefficients. -/
theorem combatEvaluate_matches_spec_table (s : GigaverseRunState)
    (h : s.player.health.current ≤ s.player.health.max) :
    (combatEvaluate s).toRat = specEvaluate s := by
  unfold combatEvaluate specEvaluate
  by_cases hd : s.player.health.current = 0
  · simp [hd, Frac.toRat_ofInt]
  · have hm1 : max 1 s.player.health.max = s.player.health.max :=
      Nat.max_eq_right (le_trans (Nat.one_le_iff_ne_zero.mpr hd) h)
    have hmpos : 0 < s.player.health.max := lt_of_lt_of_le (Nat.pos_of_ne_zero hd) h
    have hmq : (s.player.health.max : ℚ) ≠ 0 := by exact_mod_cast hmpos.ne.symm
    simp only [if_neg hd]
    rcases hE : s.enemies[s.currentEnemyIndex]? with _ | e
    · simp only [Frac.toRat_ofInt]; push_cast; ring
    · by_cases he : e.health.current = 0
      · simp only [if_pos he, Frac.toRat_ofInt]; push_cast; ring
      · simp only [if_neg he, hm1]
        have hwf1 : ((Frac.ofNat s.player.health.current).div
            (Frac.ofNat s.player.health.max)).wf := by
          simp only [Frac.div, Frac.ofNat, Frac.wf]
          exact_mod_cast Nat.one_mul s.player.health.max ▸ hmpos
        have hwf2 : (⟨7, 20⟩ : Frac).wf := by norm_num [Frac.wf]
        have hratio : ((Frac.ofNat s.player.health.current).div
            (Frac.ofNat s.player.health.max)).toRat =
            (s.player.health.current : ℚ) / (s.player.health.max : ℚ) := by
          rw [Frac.toRat_div, Frac.toRat_ofNat, Frac.toRat_ofNat]
        have h720 : (⟨7, 20⟩ : Frac).toRat = 7 / 20 := by
          norm_num [Frac.toRat]
        by_cases hr : (s.player.health.current : ℚ) / (s.player.health.max : ℚ) < 7 / 20
        · have hb : ((Frac.ofNat s.player.health.current).div
              (Frac.ofNat s.player.health.max)).blt ⟨7, 20⟩ = true := by
            rw [Frac.blt_iff hwf1 hwf2, hratio, h720]; exact hr
          simp only [hb, if_pos hr, if_true]
          by_cases ha : s.player.armor.current = 0 <;>
            simp only [if_pos, if_neg, ha, if_true, if_false] <;>
            simp only [Frac.sub, Frac.mul, Frac.div, Frac.ofInt, Frac.ofNat, Frac.toRat] <;>
            push_cast <;>
            rw [chargeBonus_cast, chargeBonus_cast, chargeBonus_cast] <;>
            split_ifs <;>
            field_simp <;>
            ring
        · have hb : ¬ (((Frac.ofNat s.player.health.current).div
              (Frac.ofNat s.player.health.max)).blt ⟨7, 20⟩ = true) := by
            rw [Frac.blt_iff hwf1 hwf2, hratio, h720]; exact hr
          simp only [hb, if_neg hr, if_false]
          by_cases ha : s.player.armor.current = 0 <;>
            simp only [if_pos, if_neg, ha, if_true, if_false] <;>
            simp only [Frac.ofInt, Frac.toRat] <;>
            push_cast <;>
            rw [chargeBonus_cast, chargeBonus_cast, chargeBonus_cast] <;>
            split_ifs <;>
            ring

/-- Claim C2, witness: the table equality applied to the concrete tie-round
state. -/
theorem combatEvaluate_matches_spec_table_witness :
    (combatEvaluate tieRoundState).toRat = specEvaluate tieRoundState :=
  combatEvaluate_matches_spec_table tieRoundState (by decide)

theorem combatEvaluate_wf (s : GigaverseRunState) : (combatEvaluate s).wf := by
  dsimp only [combatEvaluate]
  split
  · exact Frac.wf_ofInt _
  · split
    · exact Frac.wf_ofInt _
    · split
      · exact Frac.wf_ofInt _
      · split
        · refine Frac.wf_sub (Frac.wf_ofInt _)
            (Frac.wf_mul (Frac.wf_sub (by norm_num [Frac.wf]) ?_) (Frac.wf_ofInt _))
          simp only [Frac.div, Frac.ofNat, Frac.wf, one_mul]
          exact_mod_cast Nat.lt_of_lt_of_le Nat.zero_lt_one (Nat.le_max_left 1 _)
        · exact Frac.wf_ofInt _

theorem EVal.blt_irrefl (v : EVal) : v.blt v = false := by
  cases v with
  | neginf => rfl
  | fin q => simp [EVal.blt, Frac.blt]

theorem enemyLegalMoves_ne_nil (e : GigaverseFighter) : enemyLegalMoves e ≠ [] := by
  intro hc
  simp only [enemyLegalMoves] at hc
  split_ifs at hc <;> simp_all

theorem lethalScan_go (vals : List EVal) :
    ∀ acc, vals.foldl (fun acc v => if v.blt (EVal.fin deathThreshold) then some v else acc) acc
      = ((vals.filter isLethalValue).getLast?).or acc := by
  induction vals with
  | nil => intro acc; simp
  | cons v t ih =>
    intro acc
    by_cases hv : v.blt (EVal.fin deathThreshold) = true
    · simp only [List.foldl_cons, if_pos hv, ih, List.filter_cons,
        show isLethalValue v = true from hv, if_pos, List.getLast?_cons]
      cases hlast : (t.filter isLethalValue).getLast? <;> simp [hlast]
    · simp only [List.foldl_cons, if_neg hv, ih, List.filter_cons]
      rw [show isLethalValue v = false from by simpa [isLethalValue] using hv]
      simp

theorem lethalScan_eq_getLast (vals : List EVal) :
    lethalScan vals = (vals.filter isLethalValue).getLast? := by
  rw [lethalScan, lethalScan_go vals none, Option.or_none]

theorem weightedTotal_fin {p : Frac} (hp : p.wf) :
    ∀ (vals : List EVal) (qa : Frac), qa.wf →
      (∀ v ∈ vals, ∃ q, v = EVal.fin q ∧ q.wf) →
      ∃ Q : Frac, vals.foldl (fun acc v => acc.add (v.scale p)) (EVal.fin qa) = EVal.fin Q ∧
        Q.wf ∧ Q.toRat = qa.toRat +
          (vals.map (fun v => match v with | .neginf => 0 | .fin q => q.toRat)).sum * p.toRat := by
  intro vals
  induction vals with
  | nil => intro qa hqa _; exact ⟨qa, rfl, hqa, by simp⟩
  | cons v t ih =>
    intro qa hqa hv
    obtain ⟨q, rfl, hq⟩ := hv v (List.mem_cons_self v t)
    obtain ⟨Q, hfold, hQwf, hQ⟩ := ih (qa.add (q.mul p)) (Frac.wf_add hqa (Frac.wf_mul hq hp))
      (fun x hx => hv x (List.mem_cons_of_mem _ hx))
    refine ⟨Q, ?_, hQwf, ?_⟩
    · simpa [EVal.scale, EVal.add] using hfold
    · rw [hQ, Frac.toRat_add hqa (Frac.wf_mul hq hp), Frac.toRat_mul]
      simp only [List.map_cons, List.sum_cons]
      ring

theorem sum_ge_of_forall_ge {t : ℚ} :
    ∀ (l : List ℚ), (∀ x ∈ l, t ≤ x) → (l.length : ℚ) * t ≤ l.sum := by
  intro l
  induction l with
  | nil => intro _; simp
  | cons x xs ih =>
    intro h
    simp only [List.length_cons, List.sum_cons]
    push_cast
    have h1 := h x (List.mem_cons_self x xs)
    have h2 := ih (fun y hy => h y (List.mem_cons_of_mem x hy))
    nlinarith

theorem bestOf_go (f : GigaverseAction → EVal) :
    ∀ (acts : List GigaverseAction) (acc : DPResult),
      (∀ a ∈ acts, (f a).wf) → acc.bestValue.wf →
      ((acts.foldl (fun r a => let v := f a; if r.bestValue.blt v then ⟨v, some a⟩ else r)
          acc).bestValue.wf ∧
       acc.bestValue.erat ≤ (acts.foldl (fun r a => let v := f a;
          if r.bestValue.blt v then ⟨v, some a⟩ else r) acc).bestValue.erat ∧
       (∀ x ∈ acts, (f x).erat ≤ (acts.foldl (fun r a => let v := f a;
          if r.bestValue.blt v then ⟨v, some a⟩ else r) acc).bestValue.erat) ∧
       (∀ b, (acts.foldl (fun r a => let v := f a;
          if r.bestValue.blt v then ⟨v, some a⟩ else r) acc).bestAction = some b →
          ((acts.foldl (fun r a => let v := f a;
            if r.bestValue.blt v then ⟨v, some a⟩ else r) acc).bestValue = f b ∧ b ∈ acts) ∨
          (acts.foldl (fun r a => let v := f a;
            if r.bestValue.blt v then ⟨v, some a⟩ else r) acc) = acc) ∧
       ((acts.foldl (fun r a => let v := f a;
          if r.bestValue.blt v then ⟨v, some a⟩ else r) acc).bestAction = none →
          (acts.foldl (fun r a => let v := f a;
            if r.bestValue.blt v then ⟨v, some a⟩ else r) acc) = acc)) := by
  intro acts
  induction acts with
  | nil =>
    intro acc _ haccwf
    exact ⟨haccwf, le_refl _, fun x hx => absurd hx (List.not_mem_nil x),
      fun b hb => Or.inr rfl, fun _ => rfl⟩
  | cons a t ih =>
    intro acc hwf haccwf
    have hfa : (f a).wf := hwf a (List.mem_cons_self a t)
    have hwft : ∀ x ∈ t, (f x).wf := fun x hx => hwf x (List.mem_cons_of_mem a hx)
    simp only [List.foldl_cons]
    by_cases hblt : acc.bestValue.blt (f a) = true
    · have hlt : acc.bestValue.erat < (f a).erat := (EVal.blt_iff_lt haccwf hfa).mp hblt
      simp only [hblt, if_true]
      obtain ⟨w1, w2, w3, w4, w5⟩ := ih ⟨f a, some a⟩ hwft hfa
      refine ⟨w1, le_trans (le_of_lt hlt) w2, ?_, ?_, ?_⟩
      · intro x hx
        rcases List.mem_cons.mp hx with rfl | hx
        · exact w2
        · exact w3 x hx
      · intro b hb
        rcases w4 b hb with ⟨hv, hm⟩ | heq
        · exact Or.inl ⟨hv, List.mem_cons_of_mem a hm⟩
        · rw [heq] at hb
          obtain rfl : a = b := by simpa using hb
          rw [heq]
          exact Or.inl ⟨rfl, List.mem_cons_self _ t⟩
      · intro hb
        have := w5 hb
        rw [this] at hb
        simp at hb
    · have hge : (f a).erat ≤ acc.bestValue.erat := by
        have := (EVal.blt_iff_lt haccwf hfa).not.mp (by simp [hblt])
        exact not_lt.mp this
      simp only [hblt, if_false]
      obtain ⟨w1, w2, w3, w4, w5⟩ := ih acc hwft haccwf
      refine ⟨w1, w2, ?_, ?_, w5⟩
      · intro x hx
        rcases List.mem_cons.mp hx with rfl | hx
        · exact le_trans hge w2
        · exact w3 x hx
      · intro b hb
        rcases w4 b hb with ⟨hv, hm⟩ | heq
        · exact Or.inl ⟨hv, List.mem_cons_of_mem a hm⟩
        · exact Or.inr heq

theorem bestOf_spec (f : GigaverseAction → EVal) (acts : List GigaverseAction)
    (hwf : ∀ a ∈ acts, (f a).wf) :
    (bestOf f acts).bestValue.wf ∧
    (∀ x ∈ acts, (f x).erat ≤ (bestOf f acts).bestValue.erat) ∧
    (∀ b, (bestOf f acts).bestAction = some b →
      (bestOf f acts).bestValue = f b ∧ b ∈ acts) ∧
    ((bestOf f acts).bestAction = none → (bestOf f acts).bestValue = EVal.neginf) := by
  unfold bestOf
  obtain ⟨w1, _, w3, w4, w5⟩ := bestOf_go f acts ⟨EVal.neginf, none⟩ hwf trivial
  refine ⟨w1, w3, ?_, ?_⟩
  · intro b hb
    rcases w4 b hb with h | heq
    · exact h
    · rw [heq] at hb; simp at hb
  · intro hb
    rw [w5 hb]

theorem weightedTotal_wf {p : Frac} (hp : p.wf) :
    ∀ (vals : List EVal) (acc : EVal), acc.wf → (∀ v ∈ vals, v.wf) →
      (vals.foldl (fun acc v => acc.add (v.scale p)) acc).wf := by
  intro vals
  induction vals with
  | nil => intro acc hacc _; exact hacc
  | cons v t ih =>
    intro acc hacc hv
    exact ih _ (EVal.add_wf hacc (EVal.scale_wf hp (hv v (List.mem_cons_self v t))))
      (fun x hx => hv x (List.mem_cons_of_mem _ hx))

theorem lethalScan_mem {vals : List EVal} {dv : EVal} (h : lethalScan vals = some dv) :
    dv ∈ vals ∧ isLethalValue dv = true := by
  rw [lethalScan_eq_getLast] at h
  have hne : vals.filter isLethalValue ≠ [] := by
    intro hc; rw [hc] at h; simp at h
  rw [List.getLast?_eq_getLast _ hne] at h
  have hmem := List.getLast_mem hne
  rw [Option.some_inj.mp h] at hmem
  exact ⟨(List.mem_filter.mp hmem).1, (List.mem_filter.mp hmem).2⟩

theorem length_enemyLegalMoves_pos (e : GigaverseFighter) :
    0 < ((enemyLegalMoves e).length : Int) := by
  have := enemyLegalMoves_ne_nil e
  have : 0 < (enemyLegalMoves e).length := List.length_pos.mpr this
  exact_mod_cast this

theorem calculateExpectedValue_wf (E : GigaverseRunState → Frac)
    (hE : ∀ s, (E s).wf) (search : GigaverseRunState → DPResult)
    (hsearch : ∀ st, ((search st).bestValue).wf) (s : GigaverseRunState)
    (a : GigaverseAction) : (calculateExpectedValue E search s a).wf := by
  dsimp only [calculateExpectedValue]
  split
  · exact hE s
  next enemy _ =>
    split
    · exact hE s
    · split
      next dv hscan =>
        obtain ⟨hmem, _⟩ := lethalScan_mem hscan
        obtain ⟨em, _, rfl⟩ := List.mem_map.mp hmem
        exact hsearch _
      next =>
        refine weightedTotal_wf ?_ _ _ (Frac.wf_ofInt 0) ?_
        · exact length_enemyLegalMoves_pos enemy
        · intro v hv
          obtain ⟨em, _, rfl⟩ := List.mem_map.mp hv
          exact hsearch _

theorem expectimaxSearch_wf (E : GigaverseRunState → Frac) (hE : ∀ s, (E s).wf) :
    ∀ (d : Nat) (s : GigaverseRunState), ((expectimaxSearch E d s).bestValue).wf := by
  intro d
  induction d with
  | zero => intro s; exact hE s
  | succ d ih =>
    intro s
    dsimp only [expectimaxSearch]
    split
    · exact hE s
    · split
      · trivial
      next hne =>
        have hwf : ∀ a ∈ getCombatActions s,
            (calculateExpectedValue E (expectimaxSearch E d) s a).wf :=
          fun a _ => calculateExpectedValue_wf E hE _ ih s a
        exact (bestOf_spec _ _ hwf).1

theorem expectimaxSearch_succ (E : GigaverseRunState → Frac) (d : Nat)
    (s : GigaverseRunState) (h1 : s.player.health.current ≠ 0)
    (h2 : s.currentEnemyIndex < s.enemies.length) (h3 : getCombatActions s ≠ []) :
    expectimaxSearch E (d + 1) s =
      bestOf (fun a => calculateExpectedValue E (expectimaxSearch E d) s a)
        (getCombatActions s) := by
  dsimp only [expectimaxSearch]
  rw [if_neg (not_or.mpr ⟨h1, by omega⟩), if_neg (by simpa [List.isEmpty_iff] using h3)]

theorem pickAction_combat (E : GigaverseRunState → Frac) (h : Nat)
    (s : GigaverseRunState) (hl : s.lootPhase = false) :
    pickAction E h s =
      (match (expectimaxSearch E (searchDepth h) s).bestAction with
       | none => GigaverseAction.moveRock
       | some a => a) := by
  simp [pickAction, hl]

theorem calculateExpectedValue_unfold (E : GigaverseRunState → Frac)
    (search : GigaverseRunState → DPResult) (s : GigaverseRunState) (a : GigaverseAction)
    {enemy : GigaverseFighter} (hE : s.enemies[s.currentEnemyIndex]? = some enemy)
    (hen : enemy.health.current ≠ 0) :
    calculateExpectedValue E search s a =
      match lethalScan ((enemyLegalMoves enemy).map
          (fun em => (search (childState s (actionToMoveType a) em)).bestValue)) with
      | some dv => dv
      | none => weightedTotal ⟨1, ((enemyLegalMoves enemy).length : Int)⟩
          ((enemyLegalMoves enemy).map
            (fun em => (search (childState s (actionToMoveType a) em)).bestValue)) := by
  dsimp only [calculateExpectedValue]
  rw [hE]
  dsimp only
  rw [if_neg hen]

theorem deathThreshold_toRat : deathThreshold.toRat = -900000 := by
  norm_num [deathThreshold, Frac.toRat]

theorem calcEV_safe_bound (E : GigaverseRunState → Frac)
    (search : GigaverseRunState → DPResult)
    (hsearchwf : ∀ st, ((search st).bestValue).wf) (s : GigaverseRunState)
    (a : GigaverseAction) {enemy : GigaverseFighter}
    (hE : s.enemies[s.currentEnemyIndex]? = some enemy)
    (hen : enemy.health.current ≠ 0)
    (hsafe : ∀ em ∈ enemyLegalMoves enemy,
      isLethalValue ((search (childState s (actionToMoveType a) em)).bestValue) = false) :
    (EVal.fin deathThreshold).erat ≤ (calculateExpectedValue E search s a).erat := by
  have hfilter : ((enemyLegalMoves enemy).map
      (fun em => (search (childState s (actionToMoveType a) em)).bestValue)).filter
      isLethalValue = [] := by
    refine List.filter_eq_nil_iff.mpr ?_
    intro v hv
    obtain ⟨em, hem, rfl⟩ := List.mem_map.mp hv
    simp [hsafe em hem]
  have hscan : lethalScan ((enemyLegalMoves enemy).map
      (fun em => (search (childState s (actionToMoveType a) em)).bestValue)) = none := by
    rw [lethalScan_eq_getLast, hfilter]; rfl
  rw [calculateExpectedValue_unfold E search s a hE hen, hscan]
  have hfin : ∀ v ∈ (enemyLegalMoves enemy).map
      (fun em => (search (childState s (actionToMoveType a) em)).bestValue),
      ∃ q, v = EVal.fin q ∧ q.wf := by
    intro v hv
    obtain ⟨em, hem, rfl⟩ := List.mem_map.mp hv
    have hw := hsearchwf (childState s (actionToMoveType a) em)
    have hs := hsafe em hem
    cases hval : (search (childState s (actionToMoveType a) em)).bestValue with
    | neginf => rw [hval] at hs; simp [isLethalValue, EVal.blt] at hs
    | fin q => exact ⟨q, rfl, by rw [hval] at hw; exact hw⟩
  have hn : (0 : Int) < ((enemyLegalMoves enemy).length : Int) :=
    length_enemyLegalMoves_pos enemy
  have hpwf : (⟨1, ((enemyLegalMoves enemy).length : Int)⟩ : Frac).wf := hn
  obtain ⟨Q, hfold, hQwf, hQ⟩ := weightedTotal_fin hpwf
    ((enemyLegalMoves enemy).map
      (fun em => (search (childState s (actionToMoveType a) em)).bestValue))
    (Frac.ofInt 0) (Frac.wf_ofInt 0) hfin
  have hwt : weightedTotal ⟨1, ((enemyLegalMoves enemy).length : Int)⟩
      ((enemyLegalMoves enemy).map
        (fun em => (search (childState s (actionToMoveType a) em)).bestValue)) = EVal.fin Q :=
    hfold
  rw [hwt]
  simp only [EVal.erat, WithBot.coe_le_coe, deathThreshold_toRat]
  have hnq : (0 : ℚ) < ((enemyLegalMoves enemy).length : ℚ) := by exact_mod_cast hn
  have hptr : (⟨1, ((enemyLegalMoves enemy).length : Int)⟩ : Frac).toRat =
      1 / ((enemyLegalMoves enemy).length : ℚ) := by
    simp [Frac.toRat]
  have hbound : ∀ x ∈ (((enemyLegalMoves enemy).map
      (fun em => (search (childState s (actionToMoveType a) em)).bestValue)).map
      (fun v => match v with | .neginf => (0 : ℚ) | .fin q => q.toRat)),
      (-900000 : ℚ) ≤ x := by
    intro x hx
    obtain ⟨v, hv, rfl⟩ := List.mem_map.mp hx
    obtain ⟨q, rfl, hqwf⟩ := hfin v hv
    obtain ⟨em, hem, heq⟩ := List.mem_map.mp hv
    have hs := hsafe em hem
    rw [heq] at hs
    have := (Frac.blt_iff hqwf (by norm_num [deathThreshold, Frac.wf] :
      deathThreshold.wf)).not.mp (by simp [isLethalValue, EVal.blt] at hs; simp [hs])
    rw [deathThreshold_toRat] at this
    simpa using not_lt.mp this
  have hsum := sum_ge_of_forall_ge _ hbound
  rw [hQ, hptr]
  simp only [List.length_map, Frac.toRat_ofInt] at hsum ⊢
  have hlen : (((enemyLegalMoves enemy).length : ℚ)) * (-900000) ≤
      (((enemyLegalMoves enemy).map
        (fun em => (search (childState s (actionToMoveType a) em)).bestValue)).map
        (fun v => match v with | .neginf => (0 : ℚ) | .fin q => q.toRat)).sum := by
    simpa using hsum
  have hkey : (-900000 : ℚ) =
      (((enemyLegalMoves enemy).length : ℚ) * (-900000)) *
        (1 / ((enemyLegalMoves enemy).length : ℚ)) := by
    field_simp
    ring
  rw [hkey]
  push_cast
  have hrec : (0 : ℚ) ≤ 1 / ((enemyLegalMoves enemy).length : ℚ) := by positivity
  nlinarith [mul_le_mul_of_nonneg_right hlen hrec]

theorem calcEV_all_lethal (E : GigaverseRunState → Frac)
    (search : GigaverseRunState → DPResult) (s : GigaverseRunState)
    (a : GigaverseAction) {enemy : GigaverseFighter}
    (hE : s.enemies[s.currentEnemyIndex]? = some enemy)
    (hen : enemy.health.current ≠ 0)
    (hlethal : ∀ em ∈ enemyLegalMoves enemy,
      isLethalValue ((search (childState s (actionToMoveType a) em)).bestValue) = true) :
    isLethalValue (calculateExpectedValue E search s a) = true := by
  have hfilter : ((enemyLegalMoves enemy).map
      (fun em => (search (childState s (actionToMoveType a) em)).bestValue)).filter
      isLethalValue = (enemyLegalMoves enemy).map
        (fun em => (search (childState s (actionToMoveType a) em)).bestValue) := by
    refine List.filter_eq_self.mpr ?_
    intro v hv
    obtain ⟨em, hem, rfl⟩ := List.mem_map.mp hv
    exact hlethal em hem
  have hne : (enemyLegalMoves enemy).map
      (fun em => (search (childState s (actionToMoveType a) em)).bestValue) ≠ [] := by
    simp [enemyLegalMoves_ne_nil enemy]
  have hscan : lethalScan ((enemyLegalMoves enemy).map
      (fun em => (search (childState s (actionToMoveType a) em)).bestValue)) =
      some (((enemyLegalMoves enemy).map
        (fun em => (search (childState s (actionToMoveType a) em)).bestValue)).getLast hne) := by
    rw [lethalScan_eq_getLast, hfilter, List.getLast?_eq_getLast _ hne]
  rw [calculateExpectedValue_unfold E search s a hE hen, hscan]
  have hmem := List.getLast_mem hne
  obtain ⟨em, hem, heq⟩ := List.mem_map.mp hmem
  rw [← heq]
  exact hlethal em hem

/-- Claim C1, counterexample: a legal player move (rock) whose enemy-reply
children include a value below -900000 is not valued at the worst-case
lethal child value: the rock reply leads to a -Infinity dead end (the worst
child) and the paper reply to the -1000000 death leaf, yet the loop keeps
the last lethal child seen, so the move is valued -1000000, strictly above
the worst lethal child. -/
theorem lethal_override_not_worst_child :
    GigaverseAction.moveRock ∈ getCombatActions lethalScanState ∧
    (lethalScanState.enemies.map enemyLegalMoves) = [[MoveType.rock, MoveType.paper]] ∧
    childValue combatEvaluate 1 lethalScanState .moveRock .rock = EVal.neginf ∧
    childValue combatEvaluate 1 lethalScanState .moveRock .paper =
      EVal.fin (Frac.ofInt (-1000000)) ∧
    isLethalValue EVal.neginf = true ∧
    EVal.blt EVal.neginf (EVal.fin (Frac.ofInt (-1000000))) = true ∧
    calculateExpectedValue combatEvaluate (expectimaxSearch combatEvaluate 1)
      lethalScanState .moveRock = EVal.fin (Frac.ofInt (-1000000)) := by decide

/-- Claim C1 (amended): when a legal move has any enemy-reply child valued
below -900000, the search values it at the value of the last such lethal
child in enemy-move order (not necessarily the worst); consequently, in a
combat state where some legal move L is lethal in every child while another
legal move S has no lethal child, decide never returns L. -/
theorem lethal_override_last_child_and_safe_choice
    (h : Nat) (s : GigaverseRunState) (L S : GigaverseAction) (enemy : GigaverseFighter)
    (hloot : s.lootPhase = false)
    (halive : s.player.health.current ≠ 0)
    (hidx : s.currentEnemyIndex < s.enemies.length)
    (hE : s.enemies[s.currentEnemyIndex]? = some enemy)
    (henemy : enemy.health.current ≠ 0)
    (hLmem : L ∈ getCombatActions s)
    (hSmem : S ∈ getCombatActions s)
    (hLlethal : ∀ em ∈ enemyLegalMoves enemy,
      isLethalValue ((expectimaxSearch combatEvaluate (searchDepth h - 1)
        (childState s (actionToMoveType L) em)).bestValue) = true)
    (hSsafe : ∀ em ∈ enemyLegalMoves enemy,
      isLethalValue ((expectimaxSearch combatEvaluate (searchDepth h - 1)
        (childState s (actionToMoveType S) em)).bestValue) = false) :
    (∀ (A : GigaverseAction)
      (hne : ((enemyLegalMoves enemy).map
        (fun em => (expectimaxSearch combatEvaluate (searchDepth h - 1)
          (childState s (actionToMoveType A) em)).bestValue)).filter isLethalValue ≠ []),
      calculateExpectedValue combatEvaluate
          (expectimaxSearch combatEvaluate (searchDepth h - 1)) s A =
        (((enemyLegalMoves enemy).map
          (fun em => (expectimaxSearch combatEvaluate (searchDepth h - 1)
            (childState s (actionToMoveType A) em)).bestValue)).filter
          isLethalValue).getLast hne) ∧
    pickAction combatEvaluate h s ≠ L := by
  have hswd : ∀ (d : Nat) (st : GigaverseRunState),
      ((expectimaxSearch combatEvaluate d st).bestValue).wf :=
    fun d st => expectimaxSearch_wf combatEvaluate combatEvaluate_wf d st
  constructor
  · intro A hne
    rw [calculateExpectedValue_unfold combatEvaluate _ s A hE henemy,
      lethalScan_eq_getLast, List.getLast?_eq_getLast _ hne]
  · obtain ⟨d, hd⟩ : ∃ d, searchDepth h = d + 1 :=
      ⟨searchDepth h - 1, by unfold searchDepth; omega⟩
    have hd1 : searchDepth h - 1 = d := by omega
    rw [hd1] at hLlethal hSsafe
    rw [pickAction_combat combatEvaluate h s hloot, hd,
      expectimaxSearch_succ combatEvaluate d s halive hidx (List.ne_nil_of_mem hLmem)]
    have hFwf : ∀ a ∈ getCombatActions s,
        (calculateExpectedValue combatEvaluate (expectimaxSearch combatEvaluate d) s a).wf :=
      fun a _ => calculateExpectedValue_wf combatEvaluate combatEvaluate_wf _ (hswd d) s a
    obtain ⟨bwf, bge, bsome, bnone⟩ := bestOf_spec
      (fun a => calculateExpectedValue combatEvaluate (expectimaxSearch combatEvaluate d) s a)
      (getCombatActions s) hFwf
    have hSbound := calcEV_safe_bound combatEvaluate (expectimaxSearch combatEvaluate d)
      (hswd d) s S hE henemy hSsafe
    have hLleth := calcEV_all_lethal combatEvaluate (expectimaxSearch combatEvaluate d)
      s L hE henemy hLlethal
    have hLwf : (calculateExpectedValue combatEvaluate
        (expectimaxSearch combatEvaluate d) s L).wf := hFwf L hLmem
    have htwf : (EVal.fin deathThreshold).wf := by
      norm_num [EVal.wf, deathThreshold, Frac.wf]
    have hLlt : (calculateExpectedValue combatEvaluate
        (expectimaxSearch combatEvaluate d) s L).erat < (EVal.fin deathThreshold).erat := by
      refine (EVal.blt_iff_lt hLwf htwf).mp ?_
      simpa [isLethalValue] using hLleth
    cases hba : (bestOf (fun a => calculateExpectedValue combatEvaluate
        (expectimaxSearch combatEvaluate d) s a) (getCombatActions s)).bestAction with
    | none =>
      exfalso
      have hv := bnone hba
      have hle := bge S hSmem
      rw [hv] at hle
      have h2 := le_trans hSbound hle
      simp [EVal.erat] at h2
    | some b =>
      intro hcontra
      have hbL : b = L := hcontra
      obtain ⟨hvb, _⟩ := bsome b hba
      rw [hbL] at hvb
      have hge := bge S hSmem
      rw [hvb] at hge
      exact absurd (lt_of_le_of_lt (le_trans hSbound hge) hLlt)
        (lt_irrefl (EVal.fin deathThreshold).erat)

/-- Claim C1, witness: at the concrete lethal-choice state with horizon 1,
rock is lethal in its only child, paper is safe in its only child, and
decide does not return rock. -/
theorem lethal_override_last_child_and_safe_choice_witness :
    pickAction combatEvaluate 1 lethalChoiceState ≠ GigaverseAction.moveRock :=
  (lethal_override_last_child_and_safe_choice 1 lethalChoiceState
    .moveRock .movePaper
    { health := ⟨5, 5⟩, armor := ⟨0, 0⟩,
      rock := mkMove 100 0 1, paper := mkMove 0 0 0, scissor := mkMove 0 0 0 }
    (by decide) (by decide) (by decide) (by decide) (by decide)
    (by decide) (by decide) (by decide) (by decide)).2

/-- Claim C8, counterexample: in a combat state with no charged player
move, the value the search computes is not finite: the root result is the
-Infinity sentinel paired with the rock marker. -/
theorem search_value_neginf_on_no_moves :
    (expectimaxSearch combatEvaluate (searchDepth 6) noChargeState).bestValue =
      EVal.neginf ∧
    pickAction combatEvaluate 6 noChargeState = GigaverseAction.moveRock := by decide

/-- Claim C8 (amended): in combat phase with no charged player move, decide
returns the rock fallback; the search node's internal value is the
-Infinity sentinel, which pickAction discards, so callers of decide only
ever receive the action. -/
theorem fallback_rock_on_no_moves (E : GigaverseRunState → Frac) (h : Nat)
    (s : GigaverseRunState) (hl : s.lootPhase = false)
    (hc : s.player.rock.currentCharges ≤ 0 ∧ s.player.paper.currentCharges ≤ 0 ∧
      s.player.scissor.currentCharges ≤ 0) :
    pickAction E h s = GigaverseAction.moveRock ∧
    ((s.player.health.current ≠ 0 ∧ s.currentEnemyIndex < s.enemies.length) →
      (expectimaxSearch E (searchDepth h) s).bestValue = EVal.neginf) := by
  have hacts : getCombatActions s = [] := by
    unfold getCombatActions
    rw [if_neg (by omega : ¬ 0 < s.player.rock.currentCharges),
      if_neg (by omega : ¬ 0 < s.player.paper.currentCharges),
      if_neg (by omega : ¬ 0 < s.player.scissor.currentCharges)]
    rfl
  obtain ⟨d, hd⟩ : ∃ d, searchDepth h = d + 1 :=
    ⟨searchDepth h - 1, by unfold searchDepth; omega⟩
  constructor
  · rw [pickAction_combat E h s hl, hd]
    by_cases ht : s.player.health.current = 0 ∨ s.enemies.length ≤ s.currentEnemyIndex
    · simp [expectimaxSearch, ht]
    · simp [expectimaxSearch, ht, hacts]
  · intro ⟨ha, hi⟩
    rw [hd]
    have ht : ¬ (s.player.health.current = 0 ∨ s.enemies.length ≤ s.currentEnemyIndex) :=
      not_or.mpr ⟨ha, by omega⟩
    simp [expectimaxSearch, ht, hacts]

/-- Claim C8, witness: the fallback applied at the concrete no-charge state. -/
theorem fallback_rock_on_no_moves_witness :
    pickAction combatEvaluate 6 noChargeState = GigaverseAction.moveRock :=
  (fallback_rock_on_no_moves combatEvaluate 6 noChargeState (by decide) (by decide)).1

/-- Claim C10, counterexample: with the configured horizon 1, decide does
not compute the one-ply expectimax: the depth-one search picks paper at the
horizon state, while decide (whose constructor clamps the horizon up to 6)
returns rock. -/
theorem horizon_one_not_one_ply :
    (expectimaxSearch combatEvaluate 1 horizonState).bestAction =
      some GigaverseAction.movePaper ∧
    pickAction combatEvaluate 1 horizonState = GigaverseAction.moveRock ∧
    GigaverseAction.moveRock ≠ GigaverseAction.movePaper := by decide

/-- Claim C10 (amended): the constructor raises the configured horizon to
at least six, so the search depth is max(H, 6): for H at least 6 the search
explores to depth exactly H, and a caller configuring H = 1 obtains the
same decision as one configuring H = 6 on every state. -/
theorem horizon_clamped_to_six (E : GigaverseRunState → Frac)
    (s : GigaverseRunState) (h : Nat) (hh : 6 ≤ h) :
    searchDepth h = h ∧ searchDepth 1 = 6 ∧ pickAction E 1 s = pickAction E 6 s := by
  refine ⟨?_, rfl, rfl⟩
  unfold searchDepth
  omega

/-- Claim C10, witness: the clamp at horizon 7 and the coincidence of the
horizon-1 and horizon-6 decisions at the concrete horizon state. -/
theorem horizon_clamped_to_six_witness :
    searchDepth 7 = 7 ∧
    pickAction combatEvaluate 1 horizonState = pickAction combatEvaluate 6 horizonState :=
  ⟨(horizon_clamped_to_six combatEvaluate horizonState 7 (by decide)).1,
   (horizon_clamped_to_six combatEvaluate horizonState 7 (by decide)).2.2⟩

/-- Claim C7, counterexample: at 29/30 health the ratio is above 0.9, yet
evaluateLoot does not return a large negative for Heal(10): there is no
0.9-ratio override in the loot valuator and the score is positive
(478.8 = 19152/40). -/
theorem heal_above_ninety_percent_not_negative :
    Frac.blt ⟨9, 10⟩ ((Frac.ofNat nearFullHealthState.player.health.current).div
      (Frac.ofNat nearFullHealthState.player.health.max)) = true ∧
    Frac.blt (evaluateLoot nearFullHealthState healLoot) (Frac.ofInt 0) = false ∧
    evaluateLoot nearFullHealthState healLoot = ⟨19152, 40⟩ := by decide

/-- Claim C7 (amended): for a heal option, if missing health is below one
(current at or above max) the loot valuator returns the -1e9 sentinel,
which is below -1e8; there is no further override above a 0.9 health
ratio. -/
theorem heal_full_health_sentinel (s : GigaverseRunState) (loot : LootOption)
    (hheal : ((loot.boonTypeString == "Heal" || strLower loot.boonTypeString == "heal" ||
      strContains (strLower loot.boonTypeString) "potion") &&
      !(strContains (strLower loot.boonTypeString) "maxhealth")) = true)
    (hfull : s.player.health.max ≤ s.player.health.current) :
    evaluateLoot s loot = Frac.ofInt (-1000000000) ∧
    (evaluateLoot s loot).toRat < -(10 ^ 8 : ℚ) := by
  have h1 : evaluateLoot s loot = Frac.ofInt (-1000000000) := by
    dsimp only [evaluateLoot]
    rw [hheal, decide_eq_true hfull]
    rfl
  refine ⟨h1, ?_⟩
  rw [h1, Frac.toRat_ofInt]
  norm_num

/-- Claim C7, witness: Heal(10) at full health 30/30 scores the -1e9
sentinel. -/
theorem heal_full_health_sentinel_witness :
    evaluateLoot fullHealthState healLoot = Frac.ofInt (-1000000000) :=
  (heal_full_health_sentinel fullHealthState healLoot (by decide) (by decide)).1

/-- Claim C9, counterexample: with loot phase on and an empty option list,
decide does not fail: it returns the first loot-pick action. -/
theorem empty_loot_returns_pick_one :
    emptyLootState.lootPhase = true ∧ emptyLootState.lootOptions = [] ∧
    pickAction combatEvaluate 6 emptyLootState = GigaverseAction.pickLootOne := by decide

/-- Claim C9 (amended): in loot phase with an empty option list, decide
returns PickLootOne (the winning index stays at its zero default); the
engine has no failure channel, so no NoLegalAction error exists. -/
theorem empty_loot_pickAction (E : GigaverseRunState → Frac) (h : Nat)
    (s : GigaverseRunState) (hl : s.lootPhase = true) (ho : s.lootOptions = []) :
    pickAction E h s = GigaverseAction.pickLootOne := by
  unfold pickAction
  rw [if_pos hl]
  unfold pickBestLoot
  rw [ho]
  rfl

/-- Claim C9, witness: the empty-options behavior at the concrete state. -/
theorem empty_loot_pickAction_witness :
    pickAction combatEvaluate 6 emptyLootState = GigaverseAction.pickLootOne :=
  empty_loot_pickAction combatEvaluate 6 emptyLootState (by decide) (by decide)
